import Mathlib

/-!
Verification development for the pg_globalxact two-phase-commit coordinator.

The definitions below are a shallow embedding of the C sources:
  * `src/src/tpc_phase.c`        — phase automaton (labels, transitions)
  * `src/twophasecommit.c`       — live coordinator (`tpc_prepare`, `tpc_commit`,
                                   `tpc_rollback`, `complete`, `tpc_register_bgworker`)
  * `src/src/tpc_txnsetfile.c`   — log writer/parser and the recovery worker
                                   (`tpc_txnset_from_file`, `tpc_txnsetfile_write_phase`,
                                   `tpc_txnsetfile_write_action`, `tpc_process_file`,
                                   `bg_cleanup`, `check_txn`)

C strings are modelled as `List Char`; machine-level effects (file writes, SQL
round trips, background-worker registration, ereport messages) are recorded as an
explicit event trace.  Remote databases are modelled by an oracle function passed
to each operation, mapping (connection identity, SQL text) to a libpq-style
result status.  `ereport(ERROR, ...)` is modelled with `Except`.
-/

/-- Phase enumeration from `src/tpc_phase.h` (`typedef enum { BEGIN, PREPARE,
COMMIT, ROLLBACK, COMPLETE, INCOMPLETE } tpc_phase`). -/
inductive TpcPhase where
  | BEGIN
  | PREPARE
  | COMMIT
  | ROLLBACK
  | COMPLETE
  | INCOMPLETE
deriving DecidableEq

/-- Error conditions surfaced through `ereport(ERROR, errcode(...))` in the C
sources.  `corruptLog` stands for the line-overflow report in
`tpc_txnset_from_file`; `openFailed` for the failed `fopen` there. -/
inductive TpcError where
  | invalidTransactionState
  | indicatorOverflow
  | corruptLog
  | openFailed
deriving DecidableEq

/-- Convert a Lean string literal to the `List Char` representation used for C
strings throughout this development. -/
def cs (s : String) : List Char := s.data

/-- Lookup table `phase_labels` from `src/src/tpc_phase.c` lines 18-25. -/
def phase_labels : List (List Char) :=
  [cs "begin", cs "prepare", cs "commit", cs "rollback", cs "complete", cs "incomplete"]

/-- Lookup table `phases` from `src/src/tpc_phase.c` lines 27-34. -/
def phases : List TpcPhase :=
  [TpcPhase.BEGIN, TpcPhase.PREPARE, TpcPhase.COMMIT,
   TpcPhase.ROLLBACK, TpcPhase.COMPLETE, TpcPhase.INCOMPLETE]

/-- Auxiliary linear scan over the paired lookup tables. -/
def fromLabelAux (label : List Char) : List (List Char × TpcPhase) → Except TpcError TpcPhase
  | [] => Except.error TpcError.invalidTransactionState
  | (l, p) :: rest => if label = l then Except.ok p else fromLabelAux label rest

/-- `tpc_phase_from_label` from `src/src/tpc_phase.c` lines 45-54.  The C loop
runs `i < 7` over the two 6-entry arrays; the out-of-bounds read at `i = 6` is
undefined behaviour in C and is modelled here as falling through to the
`ereport(ERROR, ERRCODE_INVALID_TRANSACTION_STATE, ...)` report. -/
def tpc_phase_from_label (label : List Char) : Except TpcError TpcPhase :=
  fromLabelAux label (List.zip phase_labels phases)

/-- `tpc_phase_get_label` from `src/src/tpc_phase.c` lines 62-70: scans `phases`
for the given phase and returns the parallel entry of `phase_labels`.  Each of
the six enum values is found at index at most 5, so the C `return NULL` branch
is unreachable and the function is total here. -/
def tpc_phase_get_label (phase : TpcPhase) : List Char :=
  match phase with
  | TpcPhase.BEGIN => cs "begin"
  | TpcPhase.PREPARE => cs "prepare"
  | TpcPhase.COMMIT => cs "commit"
  | TpcPhase.ROLLBACK => cs "rollback"
  | TpcPhase.COMPLETE => cs "complete"
  | TpcPhase.INCOMPLETE => cs "incomplete"

/-- `tpc_phase_is_valid_transition` from `src/src/tpc_phase.c` lines 82-110,
translated switch case by switch case (the `default` arm covers `COMPLETE`). -/
def tpc_phase_is_valid_transition (old_phase new_phase : TpcPhase) : Bool :=
  match old_phase with
  | TpcPhase.BEGIN => new_phase = TpcPhase.PREPARE
  | TpcPhase.PREPARE => new_phase = TpcPhase.COMMIT || new_phase = TpcPhase.ROLLBACK
  | TpcPhase.COMMIT => new_phase = TpcPhase.COMPLETE || new_phase = TpcPhase.INCOMPLETE
  | TpcPhase.ROLLBACK => new_phase = TpcPhase.COMPLETE || new_phase = TpcPhase.INCOMPLETE
  | TpcPhase.INCOMPLETE => new_phase = TpcPhase.COMPLETE
  | TpcPhase.COMPLETE => false

/-- The eight legal transitions listed in the spec's section 4.1 table. -/
def validTransitionPairs : List (TpcPhase × TpcPhase) :=
  [(TpcPhase.BEGIN, TpcPhase.PREPARE),
   (TpcPhase.PREPARE, TpcPhase.COMMIT),
   (TpcPhase.PREPARE, TpcPhase.ROLLBACK),
   (TpcPhase.COMMIT, TpcPhase.COMPLETE),
   (TpcPhase.COMMIT, TpcPhase.INCOMPLETE),
   (TpcPhase.ROLLBACK, TpcPhase.COMPLETE),
   (TpcPhase.ROLLBACK, TpcPhase.INCOMPLETE),
   (TpcPhase.INCOMPLETE, TpcPhase.COMPLETE)]

/-- Connection identity exposed by libpq (`PQhost`, `PQport`, `PQdb`), which is
all of a `PGconn` that the coordinator observes. -/
structure PGconn where
  host : List Char
  port : List Char
  db : List Char
deriving DecidableEq

/-- Observable external effects of the coordinator: file writes (`fprintf` to the
txnset log), `fflush`/`fsync`, `fclose`, `unlink`, SQL round trips (`PQexec`,
with the connection identified by its rendered URL or, in recovery, by its
connection string), background-worker registration, `PQfinish`, and
ereport messages below ERROR level.  `ereport(ERROR, ...)` is modelled by
`Except`, not by an event. -/
inductive TpcEvent where
  | fileWrite (line : List Char)
  | fileFlush
  | fileClose
  | unlinkFile (path : List Char)
  | sqlExec (conn : List Char) (query : List Char)
  | registerWorker (fname : List Char)
  | warnMsg (msg : List Char)
  | infoMsg (msg : List Char)
  | connFinish (conn : List Char)
deriving DecidableEq

/-- Live-side member from the `tpc_txn` struct of `src/src/tpc_txnset.c`
(`PGconn *cnx; char txn_name[NAMEDATALEN]; struct tpc_txn *next`); the list
spine replaces the `next` pointers. -/
structure tpc_txn where
  cnx : PGconn
  txn_name : List Char
deriving DecidableEq

/-- Transaction set from `tpc_txnset.h`: prefix, counter, phase, the
`head`/`latest` singly linked member list (modelled as a list in registration
order), the open log file (modelled as the list of lines written so far) and the
log file path.  The field `txn_prefix` is called `txn_pref` here. -/
structure tpc_txnset where
  txn_pref : List Char
  counter : Nat
  tpc_phase : TpcPhase
  txns : List tpc_txn
  log : List (List Char)
  logpath : List Char
deriving DecidableEq

/-- Rendering of `phasefmt` = `"phase %s\n"`. -/
def phaseLineL (label : List Char) : List Char :=
  cs "phase " ++ label ++ [Char.ofNat 10]

/-- Connection URL as rendered by `actionfmt` = `"%s postgresql://%s:%s/%s %s %s\n"`
from `PQhost`, `PQport`, `PQdb`. -/
def connUrl (c : PGconn) : List Char :=
  cs "postgresql://" ++ c.host ++ (':' :: (c.port ++ ('/' :: c.db)))

/-- Rendering of a full action line per `actionfmt`. -/
def actionLineL (label url name status : List Char) : List Char :=
  label ++ (' ' :: (url ++ (' ' :: (name ++ (' ' :: (status ++ [Char.ofNat 10]))))))

/-- `tpc_txnsetfile_write_phase` from `src/src/tpc_txnsetfile.c` lines 185-189:
appends `phase <label>\n` for the given phase to the log. -/
def tpc_txnsetfile_write_phase (ts : tpc_txnset) (phase : TpcPhase) :
    tpc_txnset × List TpcEvent :=
  let line := phaseLineL (tpc_phase_get_label phase)
  ({ ts with log := ts.log ++ [line] }, [TpcEvent.fileWrite line])

/-- `tpc_txnsetfile_write_action` from `src/src/tpc_txnsetfile.c` lines 199-211:
the action line carries the label of the set's current phase, the member's URL,
the SET's `txn_prefix` as the transaction-name field, and the status; the write
is followed by a flush. -/
def tpc_txnsetfile_write_action (ts : tpc_txnset) (txn : tpc_txn) (status : List Char) :
    tpc_txnset × List TpcEvent :=
  let line := actionLineL (tpc_phase_get_label ts.tpc_phase) (connUrl txn.cnx)
                ts.txn_pref status
  ({ ts with log := ts.log ++ [line] }, [TpcEvent.fileWrite line, TpcEvent.fileFlush])

/-- The variant of `tpc_txnsetfile_write_action` embedded in the duplicated
txnsetfile draft at the bottom of `src/tpc_phase.h` (and called, with an extra
phase argument, by `tpc_commit`/`tpc_rollback`/`tpc_prepare` in
`src/twophasecommit.c`): identical to the `src/src` version except that the
transaction-name field is the MEMBER's own `txn_name`. -/
def tpc_txnsetfile_write_action_v0 (ts : tpc_txnset) (txn : tpc_txn) (status : List Char) :
    tpc_txnset × List TpcEvent :=
  let line := actionLineL (tpc_phase_get_label ts.tpc_phase) (connUrl txn.cnx)
                txn.txn_name status
  ({ ts with log := ts.log ++ [line] }, [TpcEvent.fileWrite line, TpcEvent.fileFlush])

/-- `tpc_register_bgworker` from `src/twophasecommit.c` lines 91-113: fills a
`BackgroundWorker` whose `bgw_extra` carries the log filename and registers it.
`launchOk` is the result of `RegisterDynamicBackgroundWorker`; when it is false
the function emits only `ereport(WARNING, "could not start worker ...")` and
returns normally (there is no error path, mirrored here by the total type). -/
def tpc_register_bgworker (launchOk : Bool) (fname : List Char) : List TpcEvent :=
  TpcEvent.registerWorker fname ::
    (if launchOk then []
     else [TpcEvent.warnMsg (cs "could not start worker for " ++ fname ++
             cs ", Manual cleanup required.")])

/-- Message of the WARNING emitted by `complete` before starting the worker. -/
def cleanupWarnMsg (path : List Char) : List Char :=
  cs "could not clean up.  Starting bgw for xact " ++ path

/-- `complete` from `src/twophasecommit.c` lines 125-143: writes the terminal
phase line (COMPLETE when `can_complete`, INCOMPLETE otherwise), closes the log
handle, then either unlinks the file and moves the set to COMPLETE, or warns,
registers the recovery worker on the log path, and moves the set to
INCOMPLETE. -/
def complete (launchOk : Bool) (ts : tpc_txnset) (can_complete : Bool) :
    tpc_txnset × List TpcEvent :=
  let r1 := tpc_txnsetfile_write_phase ts
      (if can_complete then TpcPhase.COMPLETE else TpcPhase.INCOMPLETE)
  if can_complete then
    ({ r1.1 with tpc_phase := TpcPhase.COMPLETE },
     r1.2 ++ [TpcEvent.fileClose, TpcEvent.unlinkFile r1.1.logpath])
  else
    ({ r1.1 with tpc_phase := TpcPhase.INCOMPLETE },
     r1.2 ++ [TpcEvent.fileClose, TpcEvent.warnMsg (cleanupWarnMsg r1.1.logpath)] ++
       tpc_register_bgworker launchOk r1.1.logpath)

/-- SQL text of `commitfmt` = `"COMMIT PREPARED '%s'"`. -/
def commitQuery (name : List Char) : List Char :=
  cs "COMMIT PREPARED '" ++ name ++ cs "'"

/-- SQL text of `rollbackfmt` = `"ROLLBACK PREPARED '%s'"`. -/
def rollbackQuery (name : List Char) : List Char :=
  cs "ROLLBACK PREPARED '" ++ name ++ cs "'"

/-- The member loop of `tpc_commit` (`src/twophasecommit.c` lines 235-250):
for each member issue `COMMIT PREPARED '<txn_name>'`, clear `can_complete` on a
non-OK result, and write the per-member action line with status OK or BAD.
`exec cnx q = true` models `PQresultStatus(PQexec(cnx, q)) == PGRES_COMMAND_OK`. -/
def tpc_commit_loop (exec : List Char → List Char → Bool) :
    tpc_txnset → Bool → List tpc_txn → tpc_txnset × Bool × List TpcEvent
  | ts, can, [] => (ts, can, [])
  | ts, can, curr :: rest =>
    let q := commitQuery curr.txn_name
    let ok := exec (connUrl curr.cnx) q
    let r1 := tpc_txnsetfile_write_action_v0 ts curr (if ok then cs "OK" else cs "BAD")
    let r2 := tpc_commit_loop exec r1.1 (can && ok) rest
    (r2.1, r2.2.1, TpcEvent.sqlExec (connUrl curr.cnx) q :: (r1.2 ++ r2.2.2))

/-- The member loop of `tpc_rollback` (`src/twophasecommit.c` lines 273-288),
identical to the commit loop with `ROLLBACK PREPARED`. -/
def tpc_rollback_loop (exec : List Char → List Char → Bool) :
    tpc_txnset → Bool → List tpc_txn → tpc_txnset × Bool × List TpcEvent
  | ts, can, [] => (ts, can, [])
  | ts, can, curr :: rest =>
    let q := rollbackQuery curr.txn_name
    let ok := exec (connUrl curr.cnx) q
    let r1 := tpc_txnsetfile_write_action_v0 ts curr (if ok then cs "OK" else cs "BAD")
    let r2 := tpc_rollback_loop exec r1.1 (can && ok) rest
    (r2.1, r2.2.1, TpcEvent.sqlExec (connUrl curr.cnx) q :: (r1.2 ++ r2.2.2))

/-- `tpc_commit` from `src/twophasecommit.c` lines 221-253: refuse with
`ERRCODE_INVALID_TRANSACTION_STATE` unless the phase is PREPARE (before any
write or remote command); otherwise write `phase commit`, move to COMMIT, run
the member loop, and hand the accumulated `can_complete` to `complete`. -/
def tpc_commit (exec : List Char → List Char → Bool) (launchOk : Bool)
    (ts : tpc_txnset) : Except TpcError TpcPhase × tpc_txnset × List TpcEvent :=
  if ts.tpc_phase = TpcPhase.PREPARE then
    let line := phaseLineL (cs "commit")
    let ts0 := { ts with log := ts.log ++ [line], tpc_phase := TpcPhase.COMMIT }
    let r1 := tpc_commit_loop exec ts0 true ts.txns
    let r2 := complete launchOk r1.1 r1.2.1
    (Except.ok r2.1.tpc_phase, r2.1, TpcEvent.fileWrite line :: (r1.2.2 ++ r2.2))
  else
    (Except.error TpcError.invalidTransactionState, ts, [])

/-- `tpc_rollback` from `src/twophasecommit.c` lines 259-291, symmetric to
`tpc_commit` with `ROLLBACK PREPARED` and the ROLLBACK phase. -/
def tpc_rollback (exec : List Char → List Char → Bool) (launchOk : Bool)
    (ts : tpc_txnset) : Except TpcError TpcPhase × tpc_txnset × List TpcEvent :=
  if ts.tpc_phase = TpcPhase.PREPARE then
    let line := phaseLineL (cs "rollback")
    let ts0 := { ts with log := ts.log ++ [line], tpc_phase := TpcPhase.ROLLBACK }
    let r1 := tpc_rollback_loop exec ts0 true ts.txns
    let r2 := complete launchOk r1.1 r1.2.1
    (Except.ok r2.1.tpc_phase, r2.1, TpcEvent.fileWrite line :: (r1.2.2 ++ r2.2))
  else
    (Except.error TpcError.invalidTransactionState, ts, [])

/-- Expected external trace of `complete`, as a function of the launch result,
the `can_complete` flag and the log path (on which alone it depends). -/
def completeTrace (launchOk can_complete : Bool) (path : List Char) : List TpcEvent :=
  TpcEvent.fileWrite (phaseLineL (tpc_phase_get_label
      (if can_complete then TpcPhase.COMPLETE else TpcPhase.INCOMPLETE))) ::
    (if can_complete then [TpcEvent.fileClose, TpcEvent.unlinkFile path]
     else TpcEvent.fileClose :: TpcEvent.warnMsg (cleanupWarnMsg path) ::
       tpc_register_bgworker launchOk path)

/-- Expected per-member trace of the commit loop. -/
def commitMemberTrace (exec : List Char → List Char → Bool) (t : tpc_txn) :
    List TpcEvent :=
  let q := commitQuery t.txn_name
  let ok := exec (connUrl t.cnx) q
  [TpcEvent.sqlExec (connUrl t.cnx) q,
   TpcEvent.fileWrite (actionLineL (cs "commit") (connUrl t.cnx) t.txn_name
     (if ok then cs "OK" else cs "BAD")),
   TpcEvent.fileFlush]

/-- Per-member success bits of the commit drive, in registration order. -/
def commitOks (exec : List Char → List Char → Bool) (txns : List tpc_txn) : List Bool :=
  txns.map (fun t => exec (connUrl t.cnx) (commitQuery t.txn_name))

/-- `NAMEDATALEN` from the PostgreSQL headers the sources compile against. -/
def NAMEDATALEN : Nat := 64

/-- Fuelled digit counter for `for (uint t = txnset->counter; t; t = t/10)
++lengthcounter;` in `tpc_prepare`: the number of decimal digits of `t`, with
zero digits counted for `t = 0` (the loop body never runs then).  Fuel `t`
suffices because `t / 10 < t` for positive `t`. -/
def cdigitsF : Nat → Nat → Nat
  | 0, _ => 0
  | fuel + 1, t => if t = 0 then 0 else cdigitsF fuel (t / 10) + 1

/-- Digit count entry point (see `cdigitsF`). -/
def cdigits (t : Nat) : Nat := cdigitsF t t

/-- Fuelled most-significant-first decimal digit rendering, empty for 0. -/
def decCharsF : Nat → Nat → List Char
  | 0, _ => []
  | fuel + 1, t => if t = 0 then [] else decCharsF fuel (t / 10) ++ [Nat.digitChar (t % 10)]

/-- Decimal rendering of a `%d`-printed non-negative value. -/
def natChars (n : Nat) : List Char := if n = 0 then ['0'] else decCharsF n n

/-- Member transaction name `"%s_%d"` built from the set prefix and a counter
value, as `snprintf`'d by `tpc_prepare` (before its 63-character truncation). -/
def mkName (pref : List Char) (k : Nat) : List Char := pref ++ ('_' :: natChars k)

/-- SQL text of `preparefmt` = `"PREPARE TRANSACTION '%s'"`. -/
def prepareQuery (name : List Char) : List Char :=
  cs "PREPARE TRANSACTION '" ++ name ++ cs "'"

/-- Decimal re-reading of a digit string (used only to prove `natChars`
injective). -/
def chStep (a : Nat) (c : Char) : Nat := a * 10 + (c.toNat - 48)

/-- Fold of `chStep` over a digit string. -/
def unrepr (l : List Char) : Nat := l.foldl chStep 0

/-- `tpc_prepare` from `src/twophasecommit.c` lines 153-210: check the name
length bound (digits of the OLD counter value), derive the member name
`<prefix>_<counter+1>` (the C `uint` counter wraps at 2^32; `snprintf` truncates
the name to the 63 characters that fit `txn_name[NAMEDATALEN]`), check the
transition to PREPARE (the C passes the type name `tpc_phase` to the check — a
typo for `txnset->tpc_phase`, modelled as intended), write the PREPARE phase
line, write the `todo` action line (fsync'd), only then execute
`PREPARE TRANSACTION '<name>'` on the remote, and append the member exactly
when the remote accepted; on rejection `ereport(ERROR,
ERRCODE_INVALID_TRANSACTION_STATE)` fires and the member is never appended. -/
def tpc_prepare (exec : List Char → List Char → Bool) (ts : tpc_txnset) (cnx : PGconn) :
    Except TpcError (List Char) × tpc_txnset × List TpcEvent :=
  let lengthcounter := ts.txn_pref.length + 2 + cdigits ts.counter
  if lengthcounter > NAMEDATALEN then
    (Except.error TpcError.indicatorOverflow, ts, [])
  else
    let counter2 := (ts.counter + 1) % 4294967296
    let txn_name := (mkName ts.txn_pref counter2).take 63
    let ts1 := { ts with counter := counter2 }
    let prepare_query := prepareQuery txn_name
    if tpc_phase_is_valid_transition ts1.tpc_phase TpcPhase.PREPARE then
      let r1 := tpc_txnsetfile_write_phase ts1 TpcPhase.PREPARE
      let ts2 := { r1.1 with tpc_phase := TpcPhase.PREPARE }
      let txn : tpc_txn := { cnx := cnx, txn_name := txn_name }
      let r2 := tpc_txnsetfile_write_action_v0 ts2 txn (cs "todo")
      if exec (connUrl cnx) prepare_query then
        (Except.ok txn_name, { r2.1 with txns := r2.1.txns ++ [txn] },
         r1.2 ++ r2.2 ++ [TpcEvent.sqlExec (connUrl cnx) prepare_query])
      else
        (Except.error TpcError.invalidTransactionState, r2.1,
         r1.2 ++ r2.2 ++ [TpcEvent.sqlExec (connUrl cnx) prepare_query])
    else
      (Except.error TpcError.invalidTransactionState, ts1, [])

/-- Whitespace test matching the `sscanf` `%s` delimiters relevant to the log
format (space, newline, tab, carriage return); true on non-whitespace. -/
def notWs (c : Char) : Bool :=
  !(c == ' ' || c == Char.ofNat 10 || c == Char.ofNat 9 || c == Char.ofNat 13)

/-- Fuelled whitespace-separated tokenisation, the `%s`-token view of a line
that `sscanf` produces.  Fuel equal to the list length suffices because each
step consumes at least one character. -/
def wordsF : Nat → List Char → List (List Char)
  | 0, _ => []
  | _ + 1, [] => []
  | fuel + 1, c :: rest =>
    if notWs c then
      ((c :: rest).takeWhile notWs) :: wordsF fuel ((c :: rest).dropWhile notWs)
    else wordsF fuel rest

/-- Tokenisation entry point (see `wordsF`). -/
def words (s : List Char) : List (List Char) := wordsF s.length s

/-- Prefix test, the `strstr(buf, pat) == buf` idiom. -/
def startsWithL : List Char → List Char → Bool
  | [], _ => true
  | _ :: _, [] => false
  | p :: ps, c :: rest => p == c && startsWithL ps rest

/-- Substring test, the `strstr(buf, pat) != NULL` idiom. -/
def containsSub (pat : List Char) : List Char → Bool
  | [] => startsWithL pat []
  | c :: rest => startsWithL pat (c :: rest) || containsSub pat rest

/-- One `fgets(linebuff, n + 1, f)`-style read: up to `n` characters, stopping
after a newline. -/
def fgetsChunk : Nat → List Char → List Char
  | 0, _ => []
  | _ + 1, [] => []
  | n + 1, c :: rest => c :: (if c == Char.ofNat 10 then [] else fgetsChunk n rest)

/-- Fuelled iteration of `fgets(linebuff, sizeof(linebuff), f)` with
`sizeof(linebuff) = LINEBUFFSIZE = 512` until end of file: every chunk holds at
most 511 characters, so a longer line is silently split across reads.  Fuel
equal to the content length suffices (each chunk is nonempty). -/
def fgetsAllF : Nat → List Char → List (List Char)
  | 0, _ => []
  | _ + 1, [] => []
  | fuel + 1, c :: rest =>
    fgetsChunk 511 (c :: rest) ::
      fgetsAllF fuel (List.drop (fgetsChunk 511 (c :: rest)).length (c :: rest))

/-- All reads of the file content (see `fgetsAllF`). -/
def fgetsAll (content : List Char) : List (List Char) := fgetsAllF content.length content

/-- `strlen(linebuff)`: characters before the first NUL. -/
def strlenOf (buf : List Char) : Nat :=
  (buf.takeWhile (fun c => !(c == Char.ofNat 0))).length

/-- `LINEBUFFSIZE` from `src/src/tpc_txnsetfile.c` line 54. -/
def LINEBUFFSIZE : Nat := 512

/-- The corrupt-line guard of `tpc_txnset_from_file` lines 105-107:
`LINEBUFFSIZE == strlen(linebuff) && linebuff[LINEBUFFSIZE - 1] != '\0'`.
The second conjunct is short-circuited behind the first and reads a byte whose
value depends on earlier loop iterations; it is omitted here because the first
conjunct alone decides the guard (`fgets` stores at most 511 characters plus a
terminator, so `strlen` can never reach 512 and the conjunction is false either
way). -/
def tooLongGuard (chunk : List Char) : Bool := strlenOf chunk == LINEBUFFSIZE

/-- Recovery-side member from the `tpc_txn` struct visible to
`src/src/tpc_txnsetfile.c` (`PGconn *conn; struct tpc_txn *next` — no name
field); the connection is identified by the connection string passed to
`PQconnectdb`. -/
structure rec_txn where
  connstr : List Char
deriving DecidableEq

/-- The fields of `tpc_txnset` that `tpc_txnset_from_file` populates. -/
structure rec_txnset where
  logpath : List Char
  tpc_phase : TpcPhase
  txn_pref : List Char
  txns : List rec_txn
deriving DecidableEq

/-- Line loop of `tpc_txnset_from_file` (`src/src/tpc_txnsetfile.c` lines
98-145).  A line starting with `phase` updates the set's phase via
`tpc_phase_from_label` (whose ERROR propagates); any other line is an action
record: the second token is the connection string (skipped with a WARNING
unless it contains `postgresql://`), the third token is copied into the set's
`txn_prefix` by `strncpy(txnset->txn_prefix, txnname, ...)`, and a member
carrying only the freshly opened connection is appended.  WARNING/INFO reports
(including the phase-mismatch check against the uninitialised `phaselabel`
buffer and the INCOMPLETE recovery notice) do not change parsing state and are
not traced; `sscanf` overruns of the fixed-size token buffers are undefined
behaviour in the C and are not modelled. -/
def tpc_txnset_from_lines : List (List Char) → rec_txnset → Except TpcError rec_txnset
  | [], ts => Except.ok ts
  | chunk :: rest, ts =>
    if tooLongGuard chunk then Except.error TpcError.corruptLog
    else if startsWithL (cs "phase") chunk then
      match tpc_phase_from_label ((words chunk).getD 1 []) with
      | Except.error e => Except.error e
      | Except.ok p => tpc_txnset_from_lines rest { ts with tpc_phase := p }
    else
      if containsSub (cs "postgresql://") ((words chunk).getD 1 []) then
        tpc_txnset_from_lines rest
          { ts with txn_pref := (words chunk).getD 2 [],
                    txns := ts.txns ++ [{ connstr := (words chunk).getD 1 [] }] }
      else
        tpc_txnset_from_lines rest ts

/-- `tpc_txnset_from_file` from `src/src/tpc_txnsetfile.c` lines 79-147 on a
given file content.  `palloc` leaves `tpc_phase` and `txn_prefix` uninitialised
until the first phase/action line; they are initialised here to BEGIN and ""
as stand-ins for those don't-care values (every writer-produced log opens with
`phase begin`).  The `fopen` failure path is outside this model because the
content is supplied directly. -/
def tpc_txnset_from_file (fname content : List Char) : Except TpcError rec_txnset :=
  tpc_txnset_from_lines (fgetsAll content)
    { logpath := fname.take 255, tpc_phase := TpcPhase.BEGIN, txn_pref := [], txns := [] }

/-- The `rollback` argument `txnset->tpc_phase != COMMIT` that
`tpc_process_file` (`src/src/tpc_txnsetfile.c` lines 439-447) computes from the
parsed set and passes to `bg_cleanup`; `true` means the worker re-drives the
members with ROLLBACK PREPARED, `false` with COMMIT PREPARED.  The unbounded
cleanup loop itself is modelled one pass at a time by `bg_pass`. -/
def tpc_process_file_flag (fname content : List Char) : Except TpcError Bool :=
  match tpc_txnset_from_file fname content with
  | Except.error e => Except.error e
  | Except.ok ts => Except.ok (decide (ts.tpc_phase ≠ TpcPhase.COMMIT))

/-- Modelled from the spec: "the last non-INCOMPLETE phase recorded in the
log", the quantity the spec says reconciliation derives the terminal command
from.  Stated over the log's lines for comparison with what the code computes. -/
def spec_lastNonIncompletePhase (lines : List (List Char)) : Option TpcPhase :=
  ((lines.filterMap (fun l =>
      if startsWithL (cs "phase") l then (tpc_phase_from_label ((words l).getD 1 [])).toOption
      else none)).filter (fun p => p ≠ TpcPhase.INCOMPLETE)).getLast?

/-- libpq result statuses distinguished by the recovery code:
`PGRES_COMMAND_OK`, `PGRES_TUPLES_OK` with its `PQntuples` count, and anything
else. -/
inductive PGresStatus where
  | cmdOK
  | tuplesOK (ntuples : Nat)
  | errRes
deriving DecidableEq

/-- SQL text of `checkfmt` = `"SELECT * FROM pg_prepared_xacts WHERE gid = '%s'"`. -/
def checkQuery (gid : List Char) : List Char :=
  cs "SELECT * FROM pg_prepared_xacts WHERE gid = '" ++ gid ++ cs "'"

/-- `check_txn` from `src/src/tpc_txnsetfile.c` lines 516-548: probe
`pg_prepared_xacts` for the set's `txn_prefix` on the member's connection.
Result not TUPLES_OK/COMMAND_OK: INFO report, member NOT removed (returns
false).  One or more tuples: WARNING report, not removed.  Otherwise (zero
tuples — including a COMMAND_OK result, whose `PQntuples` is 0): INFO report,
`PQfinish` the connection, splice the member out, return true.  The splice
itself is performed by the caller-side list recursion in `bg_pass`. -/
def check_txn (exec : List Char → List Char → PGresStatus) (pref : List Char)
    (curr : rec_txn) : Bool × List TpcEvent :=
  match exec curr.connstr (checkQuery pref) with
  | PGresStatus.errRes =>
    (false, [TpcEvent.sqlExec curr.connstr (checkQuery pref),
             TpcEvent.infoMsg (cs "Transaction " ++ pref ++ cs " query failed")])
  | PGresStatus.cmdOK =>
    (true, [TpcEvent.sqlExec curr.connstr (checkQuery pref),
            TpcEvent.infoMsg (cs "Transaction " ++ pref ++ cs " not found"),
            TpcEvent.connFinish curr.connstr])
  | PGresStatus.tuplesOK n =>
    if 1 ≤ n then
      (false, [TpcEvent.sqlExec curr.connstr (checkQuery pref),
               TpcEvent.warnMsg (cs "Transaction " ++ pref ++ cs " found " ++
                 natChars n ++ cs " times")])
    else
      (true, [TpcEvent.sqlExec curr.connstr (checkQuery pref),
              TpcEvent.infoMsg (cs "Transaction " ++ pref ++ cs " not found"),
              TpcEvent.connFinish curr.connstr])

/-- Terminal command chosen by `bg_cleanup`: ROLLBACK PREPARED when `rollback`,
COMMIT PREPARED otherwise, always on the set's `txn_prefix`. -/
def termQuery (rollback : Bool) (pref : List Char) : List Char :=
  if rollback then rollbackQuery pref else commitQuery pref

/-- One iteration of the member loop of `bg_cleanup`
(`src/src/tpc_txnsetfile.c` lines 460-508), starting from `last = NULL` (a
first pass): warn, probe via `check_txn` (splice and continue when it removed
the member), otherwise issue the terminal command and splice the member exactly
when it returns COMMAND_OK, retaining it otherwise.  The C splices through the
`last` pointer while iterating over the unchanged `next` chain, which on a
single pass is exactly this list recursion.  The `PQstatus`/`PQreset`
connection check has no observable effect in this model. -/
def bg_pass (exec : List Char → List Char → PGresStatus) (rollback : Bool)
    (pref : List Char) : List rec_txn → List rec_txn × List TpcEvent
  | [] => ([], [])
  | curr :: rest =>
    if (check_txn exec pref curr).1 then
      ((bg_pass exec rollback pref rest).1,
       TpcEvent.warnMsg (cs "cleaning up xact " ++ pref) ::
         ((check_txn exec pref curr).2 ++ (bg_pass exec rollback pref rest).2))
    else
      ((if exec curr.connstr (termQuery rollback pref) == PGresStatus.cmdOK then
          (bg_pass exec rollback pref rest).1
        else curr :: (bg_pass exec rollback pref rest).1),
       TpcEvent.warnMsg (cs "cleaning up xact " ++ pref) ::
         ((check_txn exec pref curr).2 ++
           (TpcEvent.sqlExec curr.connstr (termQuery rollback pref) ::
             (bg_pass exec rollback pref rest).2)))

/-- A member survives one recovery pass iff the probe did not remove it and its
terminal command did not return COMMAND_OK. -/
def member_kept (exec : List Char → List Char → PGresStatus) (rollback : Bool)
    (pref : List Char) (m : rec_txn) : Bool :=
  !(check_txn exec pref m).1 &&
    !(exec m.connstr (termQuery rollback pref) == PGresStatus.cmdOK)

/-- Events one recovery pass produces for one member: the warning, the probe
events, and — only when the probe did not remove the member — the terminal
command. -/
def bg_member_events (exec : List Char → List Char → PGresStatus) (rollback : Bool)
    (pref : List Char) (m : rec_txn) : List TpcEvent :=
  TpcEvent.warnMsg (cs "cleaning up xact " ++ pref) ::
    ((check_txn exec pref m).2 ++
      (if (check_txn exec pref m).1 then []
       else [TpcEvent.sqlExec m.connstr (termQuery rollback pref)]))

/-- Concatenation of the log lines into the file's byte content. -/
def joinL : List (List Char) → List Char
  | [] => []
  | l :: rest => l ++ joinL rest

/-- One registration's writes through the `src/src/tpc_txnsetfile.c` writers:
a PREPARE phase line, the move to PREPARE, and the `todo` action line (whose
name field is the SET's `txn_prefix`, since that is what
`tpc_txnsetfile_write_action` prints). -/
def regWriteOne (ts : tpc_txnset) (c : PGconn) : tpc_txnset :=
  let r1 := tpc_txnsetfile_write_phase ts TpcPhase.PREPARE
  (tpc_txnsetfile_write_action { r1.1 with tpc_phase := TpcPhase.PREPARE }
    { cnx := c, txn_name := [] } (cs "todo")).1

/-- The set state after creating a set with the given prefix (which writes
`phase begin`) and registering the given connections in order. -/
def writeSetLogSet (pref : List Char) (conns : List PGconn) : tpc_txnset :=
  conns.foldl regWriteOne
    (tpc_txnsetfile_write_phase
      { txn_pref := pref, counter := 0, tpc_phase := TpcPhase.BEGIN,
        txns := [], log := [], logpath := pref } TpcPhase.BEGIN).1

/-- The log lines such a run leaves on disk. -/
def writeSetLog (pref : List Char) (conns : List PGconn) : List (List Char) :=
  (writeSetLogSet pref conns).log

/-- The log written for a live set: one action line per member, through the
`src/src` writer. -/
def writeSetLogTx (ts : tpc_txnset) : List (List Char) :=
  writeSetLog ts.txn_pref (ts.txns.map (fun t => t.cnx))

/-- The transaction-name field (third `%s` token, the one
`tpc_txnset_from_file` reads as `txnname`) of each non-phase line of a log. -/
def actionNames (lines : List (List Char)) : List (List Char) :=
  (lines.filter (fun l => !startsWithL (cs "phase") l)).map (fun l => (words l).getD 2 [])

/-- Claim C8 as stated: re-parsing a written log recovers the per-member
transaction names of the set that wrote it, i.e. the name fields present in the
written log are exactly the members' names. -/
def c8_claim : Prop :=
  ∀ ts : tpc_txnset, actionNames (writeSetLogTx ts) = ts.txns.map (fun t => t.txn_name)

/-- Claim C5 as stated for the probe-failure case: whenever the probe query for
a member fails, the member is retained in the list unchanged by the pass. -/
def c5_claim_probe_fail_retained : Prop :=
  ∀ (exec : List Char → List Char → PGresStatus) (rollback : Bool) (pref : List Char)
    (curr : rec_txn) (rest : List rec_txn),
    exec curr.connstr (checkQuery pref) = PGresStatus.errRes →
    curr ∈ (bg_pass exec rollback pref (curr :: rest)).1

/-- Oracle whose probe fails while every other command succeeds. -/
def c5_exec : List Char → List Char → PGresStatus :=
  fun _ q => if q = checkQuery (cs "p") then PGresStatus.errRes else PGresStatus.cmdOK

/-- Concrete pair of remote connections used to instantiate the round-trip
theorem. -/
def c8_example_conns : List PGconn :=
  [{ host := cs "remote-a", port := cs "5432", db := cs "db1" },
   { host := cs "remote-b", port := cs "5432", db := cs "db2" }]

/-- Concrete one-member set with counter 1 whose existing member carries the
name the registration path gave it; phase BEGIN so that the transition check of
`tpc_prepare` passes (used to instantiate the accepted-registration helper). -/
def c4_example_set : tpc_txnset :=
  { txn_pref := cs "p", counter := 1, tpc_phase := TpcPhase.BEGIN,
    txns := [{ cnx := { host := cs "remote-a", port := cs "5432", db := cs "db1" },
               txn_name := mkName (cs "p") 1 }],
    log := [phaseLineL (cs "begin")], logpath := cs "extglobalxact/p" }

/-- The set state right after the first successful registration of spec
scenario 1: phase PREPARE, counter 1, one member named `p_1`. -/
def c4_second_set : tpc_txnset :=
  { txn_pref := cs "p", counter := 1, tpc_phase := TpcPhase.PREPARE,
    txns := [{ cnx := { host := cs "remote-a", port := cs "5432", db := cs "db1" },
               txn_name := mkName (cs "p") 1 }],
    log := [phaseLineL (cs "begin"), phaseLineL (cs "prepare"),
            actionLineL (cs "prepare")
              (connUrl { host := cs "remote-a", port := cs "5432", db := cs "db1" })
              (mkName (cs "p") 1) (cs "todo")],
    logpath := cs "extglobalxact/p" }

/-- A commit-era log whose drive ended INCOMPLETE: the exact shape `complete`
leaves behind after a partial commit (spec scenario 3). -/
def c3_lines : List (List Char) :=
  [cs "phase begin\n",
   cs "phase prepare\n",
   cs "prepare postgresql://h:5/d p todo\n",
   cs "phase commit\n",
   cs "commit postgresql://h:5/d p BAD\n",
   cs "phase incomplete\n"]

/-- File content of `c3_lines`. -/
def c3_content : List Char := joinL c3_lines

/-- A single log line of 600 characters followed by the newline: longer than
the 512-byte bound the spec promises is enforced. -/
def c9_long_line : List Char := List.replicate 600 'a' ++ [Char.ofNat 10]

/-- Concrete two-member transaction set in phase PREPARE (spec scenario 1
shape), used to instantiate the coordinator theorems. -/
def c1_example_set : tpc_txnset :=
  { txn_pref := cs "p", counter := 2, tpc_phase := TpcPhase.PREPARE,
    txns := [{ cnx := { host := cs "remote-a", port := cs "5432", db := cs "db1" },
               txn_name := cs "p_1" },
             { cnx := { host := cs "remote-b", port := cs "5432", db := cs "db2" },
               txn_name := cs "p_2" }],
    log := [phaseLineL (cs "begin")], logpath := cs "extglobalxact/p" }

/-- Remote oracle where only the first example member acknowledges its terminal
command (partial-commit scenario: member 2 returns an error). -/
def c1_exec : List Char → List Char → Bool :=
  fun conn _ => conn = cs "postgresql://remote-a:5432/db1"

/-- Concrete transaction set still in phase BEGIN (no member prepared). -/
def c7_example_set : tpc_txnset :=
  { txn_pref := cs "q", counter := 0, tpc_phase := TpcPhase.BEGIN,
    txns := [], log := [phaseLineL (cs "begin")], logpath := cs "extglobalxact/q" }

/-- Claim C6: for every pair of phases, `tpc_phase_is_valid_transition old new`
returns true exactly when (old, new) is one of the eight table entries
BEGIN→PREPARE, PREPARE→COMMIT, PREPARE→ROLLBACK, COMMIT→COMPLETE,
COMMIT→INCOMPLETE, ROLLBACK→COMPLETE, ROLLBACK→INCOMPLETE,
INCOMPLETE→COMPLETE, and false for every other pair. -/
theorem c6_transition_table :
    ∀ old_phase new_phase : TpcPhase,
      tpc_phase_is_valid_transition old_phase new_phase = true ↔
        (old_phase, new_phase) ∈ validTransitionPairs := by
  intro o n
  cases o <;> cases n <;> decide

/-- Claim C10: label and phase lookups are mutually inverse on the valid
domain: `tpc_phase_from_label (tpc_phase_get_label p) = .ok p` for each of the
six phases, and for each of the six labels the round trip through
`tpc_phase_from_label` then `tpc_phase_get_label` returns the label. -/
theorem c10_phase_label_inverse :
    (∀ p : TpcPhase, tpc_phase_from_label (tpc_phase_get_label p) = Except.ok p)
    ∧ (tpc_phase_from_label (cs "begin") = Except.ok TpcPhase.BEGIN
       ∧ tpc_phase_get_label TpcPhase.BEGIN = cs "begin")
    ∧ (tpc_phase_from_label (cs "prepare") = Except.ok TpcPhase.PREPARE
       ∧ tpc_phase_get_label TpcPhase.PREPARE = cs "prepare")
    ∧ (tpc_phase_from_label (cs "commit") = Except.ok TpcPhase.COMMIT
       ∧ tpc_phase_get_label TpcPhase.COMMIT = cs "commit")
    ∧ (tpc_phase_from_label (cs "rollback") = Except.ok TpcPhase.ROLLBACK
       ∧ tpc_phase_get_label TpcPhase.ROLLBACK = cs "rollback")
    ∧ (tpc_phase_from_label (cs "complete") = Except.ok TpcPhase.COMPLETE
       ∧ tpc_phase_get_label TpcPhase.COMPLETE = cs "complete")
    ∧ (tpc_phase_from_label (cs "incomplete") = Except.ok TpcPhase.INCOMPLETE
       ∧ tpc_phase_get_label TpcPhase.INCOMPLETE = cs "incomplete") := by
  refine ⟨fun p => ?_, ?_, ?_, ?_, ?_, ?_, ?_⟩
  · cases p <;> rfl
  all_goals exact ⟨rfl, rfl⟩

/-- Helper: `complete` touches nothing but the log, phase and events; its trace
depends on the log path alone, and the resulting phase is decided by the flag. -/
theorem complete_spec (launchOk : Bool) (ts : tpc_txnset) (f : Bool) :
    (complete launchOk ts f).2 = completeTrace launchOk f ts.logpath
    ∧ (complete launchOk ts f).1.tpc_phase
        = (if f then TpcPhase.COMPLETE else TpcPhase.INCOMPLETE) := by
  cases f <;>
    simp [complete, completeTrace, tpc_txnsetfile_write_phase, tpc_register_bgworker]

/-- Helper: full characterisation of the commit member loop when the set is in
phase COMMIT: the trace is the concatenation of the per-member traces, the flag
is the conjunction of the per-member successes, and the log path is unchanged. -/
theorem tpc_commit_loop_spec (exec : List Char → List Char → Bool) :
    ∀ (txns : List tpc_txn) (ts : tpc_txnset) (can : Bool),
      ts.tpc_phase = TpcPhase.COMMIT →
      (tpc_commit_loop exec ts can txns).2.2 = txns.flatMap (commitMemberTrace exec)
      ∧ (tpc_commit_loop exec ts can txns).2.1 = (can && (commitOks exec txns).all id)
      ∧ (tpc_commit_loop exec ts can txns).1.logpath = ts.logpath := by
  intro txns
  induction txns with
  | nil => intro ts can h; simp [tpc_commit_loop, commitOks]
  | cons curr rest ih =>
    intro ts can h
    have hts1 : (tpc_txnsetfile_write_action_v0 ts curr
        (if exec (connUrl curr.cnx) (commitQuery curr.txn_name) then cs "OK"
         else cs "BAD")).1.tpc_phase = TpcPhase.COMMIT := by
      simp [tpc_txnsetfile_write_action_v0, h]
    have ihr := ih (tpc_txnsetfile_write_action_v0 ts curr
        (if exec (connUrl curr.cnx) (commitQuery curr.txn_name) then cs "OK"
         else cs "BAD")).1
      (can && exec (connUrl curr.cnx) (commitQuery curr.txn_name)) hts1
    refine ⟨?_, ?_, ?_⟩
    · simp only [tpc_commit_loop, ihr.1, List.flatMap_cons]
      simp [commitMemberTrace, tpc_txnsetfile_write_action_v0, h, tpc_phase_get_label]
    · simp only [tpc_commit_loop, ihr.2.1, commitOks]
      simp [Bool.and_assoc]
    · simp only [tpc_commit_loop, ihr.2.2]
      simp [tpc_txnsetfile_write_action_v0]

/-- Claim C1: for a set in phase PREPARE, `tpc_commit` issues
`COMMIT PREPARED '<member-name>'` for each member with that member's own
transaction name, in registration order; writes for each member an action line
whose status is OK exactly when that member's command succeeded and BAD
otherwise; and passes to `complete` a `can_complete` flag equal to the
conjunction of every per-member success (visible in the terminal trace and the
returned phase). -/
theorem c1_drive_to_commit (exec : List Char → List Char → Bool) (launchOk : Bool)
    (ts : tpc_txnset) (h : ts.tpc_phase = TpcPhase.PREPARE) :
    (tpc_commit exec launchOk ts).2.2 =
      TpcEvent.fileWrite (phaseLineL (cs "commit")) ::
        (ts.txns.flatMap (commitMemberTrace exec) ++
          completeTrace launchOk ((commitOks exec ts.txns).all id) ts.logpath)
    ∧ (tpc_commit exec launchOk ts).1 =
        Except.ok (if (commitOks exec ts.txns).all id then TpcPhase.COMPLETE
                   else TpcPhase.INCOMPLETE) := by
  have hloop := tpc_commit_loop_spec exec ts.txns { ts with log := ts.log ++ [phaseLineL (cs "commit")], tpc_phase := TpcPhase.COMMIT } true rfl
  have hcomp := complete_spec launchOk (tpc_commit_loop exec { ts with log := ts.log ++ [phaseLineL (cs "commit")], tpc_phase := TpcPhase.COMMIT } true ts.txns).1 (tpc_commit_loop exec { ts with log := ts.log ++ [phaseLineL (cs "commit")], tpc_phase := TpcPhase.COMMIT } true ts.txns).2.1
  constructor
  · simp only [tpc_commit, if_pos h]
    rw [hloop.1, hcomp.1, hloop.2.1, hloop.2.2]
    simp
  · simp only [tpc_commit, if_pos h]
    rw [hcomp.2, hloop.2.1]
    simp

/-- Witness for C1 at the concrete two-member set: the hypothesis holds, the
flag evaluates to false there (member 2 fails), and the drive returns
INCOMPLETE accordingly. -/
theorem c1_drive_to_commit_witness :
    c1_example_set.tpc_phase = TpcPhase.PREPARE
    ∧ (commitOks c1_exec c1_example_set.txns).all id = false
    ∧ (tpc_commit c1_exec true c1_example_set).1 =
        Except.ok (if (commitOks c1_exec c1_example_set.txns).all id then TpcPhase.COMPLETE
                   else TpcPhase.INCOMPLETE) :=
  ⟨rfl, by decide, (c1_drive_to_commit c1_exec true c1_example_set rfl).2⟩

/-- Claim C2: `complete` writes the terminal phase line COMPLETE exactly when
`can_complete` is true and INCOMPLETE otherwise; on COMPLETE it unlinks the log
file and sets the phase to COMPLETE; on INCOMPLETE it leaves the file in place
(no unlink event), registers the recovery worker with the file's path, sets the
phase to INCOMPLETE, and a launch failure adds only a WARNING — the function
has no error path at all (total return type). -/
theorem c2_finalize (launchOk : Bool) (ts : tpc_txnset) :
    complete launchOk ts true =
      ({ ts with log := ts.log ++ [phaseLineL (cs "complete")], tpc_phase := TpcPhase.COMPLETE },
       [TpcEvent.fileWrite (phaseLineL (cs "complete")), TpcEvent.fileClose,
        TpcEvent.unlinkFile ts.logpath])
    ∧ complete launchOk ts false =
      ({ ts with log := ts.log ++ [phaseLineL (cs "incomplete")], tpc_phase := TpcPhase.INCOMPLETE },
       [TpcEvent.fileWrite (phaseLineL (cs "incomplete")), TpcEvent.fileClose,
        TpcEvent.warnMsg (cleanupWarnMsg ts.logpath),
        TpcEvent.registerWorker ts.logpath] ++
         (if launchOk then []
          else [TpcEvent.warnMsg (cs "could not start worker for " ++ ts.logpath ++
                  cs ", Manual cleanup required.")]))
    ∧ (∀ p, TpcEvent.unlinkFile p ∉ (complete launchOk ts false).2)
    ∧ (∀ p, TpcEvent.registerWorker p ∉ (complete launchOk ts true).2)
    ∧ tpc_register_bgworker false ts.logpath =
        [TpcEvent.registerWorker ts.logpath,
         TpcEvent.warnMsg (cs "could not start worker for " ++ ts.logpath ++
           cs ", Manual cleanup required.")] := by
  refine ⟨?_, ?_, ?_, ?_, ?_⟩ <;>
    cases launchOk <;>
      simp [complete, tpc_txnsetfile_write_phase, tpc_register_bgworker,
        cleanupWarnMsg, tpc_phase_get_label]

/-- Claim C7: for a set whose phase is not PREPARE, both `tpc_commit` and
`tpc_rollback` fail with InvalidTransactionState before issuing any remote
command or writing any log record: the returned set is the input set unchanged
and the event trace is empty. -/
theorem c7_invalid_phase_noop (exec : List Char → List Char → Bool) (launchOk : Bool)
    (ts : tpc_txnset) (h : ts.tpc_phase ≠ TpcPhase.PREPARE) :
    tpc_commit exec launchOk ts = (Except.error TpcError.invalidTransactionState, ts, [])
    ∧ tpc_rollback exec launchOk ts =
        (Except.error TpcError.invalidTransactionState, ts, []) := by
  constructor <;> simp [tpc_commit, tpc_rollback, if_neg h]

/-- Witness for C7 at a concrete BEGIN-phase set. -/
theorem c7_invalid_phase_noop_witness :
    c7_example_set.tpc_phase ≠ TpcPhase.PREPARE
    ∧ (tpc_commit (fun _ _ => true) true c7_example_set =
        (Except.error TpcError.invalidTransactionState, c7_example_set, [])
       ∧ tpc_rollback (fun _ _ => true) true c7_example_set =
          (Except.error TpcError.invalidTransactionState, c7_example_set, [])) :=
  ⟨by decide, c7_invalid_phase_noop (fun _ _ => true) true c7_example_set (by decide)⟩

/-- Helper: one `fgets` read returns at most `n` characters. -/
theorem fgetsChunk_length_le : ∀ (n : Nat) (s : List Char), (fgetsChunk n s).length ≤ n := by
  intro n
  induction n with
  | zero => intro s; simp [fgetsChunk]
  | succ n ih =>
    intro s
    cases s with
    | nil => simp [fgetsChunk]
    | cons c rest =>
      by_cases h : c == Char.ofNat 10
      · simp [fgetsChunk, h]
      · simp only [fgetsChunk, h, if_false, Bool.false_eq_true, List.length_cons]
        have := ih rest
        omega

/-- Helper: `takeWhile` never lengthens a list. -/
theorem takeWhile_length_le (p : Char → Bool) :
    ∀ l : List Char, (l.takeWhile p).length ≤ l.length := by
  intro l
  induction l with
  | nil => simp
  | cons a l ih =>
    by_cases h : p a
    · simp only [List.takeWhile_cons, h, if_true, List.length_cons]
      omega
    · simp [List.takeWhile_cons, h]

/-- Helper: the corrupt-line guard is false for any buffer of at most 511
characters (and `fgets` never stores more). -/
theorem tooLongGuard_of_le (chunk : List Char) (h : chunk.length ≤ 511) :
    tooLongGuard chunk = false := by
  have h2 : strlenOf chunk ≤ chunk.length := by
    simpa [strlenOf] using takeWhile_length_le (fun c => !(c == Char.ofNat 0)) chunk
  simp only [tooLongGuard, LINEBUFFSIZE, beq_eq_false_iff_ne, ne_eq]
  omega

/-- Helper: every chunk delivered by the `fgets` loop has at most 511
characters. -/
theorem fgetsAllF_chunk_le : ∀ (fuel : Nat) (content chunk : List Char),
    chunk ∈ fgetsAllF fuel content → chunk.length ≤ 511 := by
  intro fuel
  induction fuel with
  | zero => intro content chunk h; simp [fgetsAllF] at h
  | succ fuel ih =>
    intro content chunk h
    cases content with
    | nil => simp [fgetsAllF] at h
    | cons c rest =>
      simp only [fgetsAllF, List.mem_cons] at h
      rcases h with h | h
      · subst h; exact fgetsChunk_length_le 511 _
      · exact ih _ _ h

/-- Helper: the label lookup reports only InvalidTransactionState. -/
theorem fromLabelAux_err : ∀ (table : List (List Char × TpcPhase)) (label : List Char)
    (e : TpcError), fromLabelAux label table = Except.error e →
    e = TpcError.invalidTransactionState := by
  intro table
  induction table with
  | nil => intro label e h; simpa [fromLabelAux] using h.symm
  | cons hd tl ih =>
    intro label e h
    by_cases h2 : label = hd.1
    · simp [fromLabelAux, h2] at h
    · exact ih label e (by simpa [fromLabelAux, h2] using h)

/-- Helper: the parser loop can never report the corrupt-log error when every
line is at most 511 characters long. -/
theorem from_lines_no_corrupt : ∀ (lines : List (List Char)) (ts : rec_txnset),
    (∀ l ∈ lines, l.length ≤ 511) →
    tpc_txnset_from_lines lines ts ≠ Except.error TpcError.corruptLog := by
  intro lines
  induction lines with
  | nil => intro ts h; simp [tpc_txnset_from_lines]
  | cons chunk rest ih =>
    intro ts h
    have hg := tooLongGuard_of_le chunk (h chunk (List.mem_cons_self _ _))
    have hrest : ∀ l ∈ rest, l.length ≤ 511 := fun l hl => h l (List.mem_cons_of_mem _ hl)
    simp only [tpc_txnset_from_lines, hg, Bool.false_eq_true, if_false]
    by_cases h2 : startsWithL (cs "phase") chunk = true
    · simp only [h2, if_true]
      cases hlab : tpc_phase_from_label ((words chunk).getD 1 []) with
      | error e =>
        have := fromLabelAux_err _ _ _ hlab
        subst this
        simp
      | ok p => exact ih _ hrest
    · simp only [h2, if_false]
      by_cases h3 : containsSub (cs "postgresql://") ((words chunk).getD 1 []) = true
      · simp only [h3, if_true]; exact ih _ hrest
      · simp only [h3, if_false]; exact ih _ hrest

set_option maxRecDepth 8000 in
/-- Claim C9 (code side): the corrupt-log error of `tpc_txnset_from_file` can
never fire — `fgets` stores at most 511 characters, so the guard
`LINEBUFFSIZE == strlen(linebuff)` is unsatisfiable — and in particular the
600-character line `c9_long_line` (over the claimed 512-byte bound) is parsed
without any error, silently split across reads, instead of failing with
CorruptLog as the claim states. -/
theorem c9_no_corrupt_log_error :
    (∀ fname content : List Char,
      tpc_txnset_from_file fname content ≠ Except.error TpcError.corruptLog)
    ∧ tpc_txnset_from_file (cs "f") c9_long_line =
        Except.ok { logpath := cs "f", tpc_phase := TpcPhase.BEGIN,
                    txn_pref := [], txns := [] } := by
  constructor
  · intro fname content
    exact from_lines_no_corrupt (fgetsAll content) _
      (fun l hl => fgetsAllF_chunk_le _ _ _ hl)
  · rfl

/-- Claim C3 (code side): on a log whose records end with COMMIT followed by
INCOMPLETE, `tpc_txnset_from_file` leaves the set's phase at the last phase
line (INCOMPLETE), so `tpc_process_file` computes `rollback =
(tpc_phase != COMMIT) = true` and the recovery pass issues ROLLBACK PREPARED —
although the last non-INCOMPLETE phase of that log is COMMIT, for which the
claim requires COMMIT PREPARED. -/
theorem c3_commit_era_rolled_back :
    tpc_process_file_flag (cs "f") c3_content = Except.ok true
    ∧ tpc_txnset_from_file (cs "f") c3_content =
        Except.ok { logpath := cs "f", tpc_phase := TpcPhase.INCOMPLETE,
                    txn_pref := cs "p",
                    txns := [{ connstr := cs "postgresql://h:5/d" },
                             { connstr := cs "postgresql://h:5/d" }] }
    ∧ spec_lastNonIncompletePhase c3_lines = some TpcPhase.COMMIT
    ∧ (bg_pass (fun _ _ => PGresStatus.tuplesOK 1) true (cs "p")
        [{ connstr := cs "postgresql://h:5/d" }]).2.contains
        (TpcEvent.sqlExec (cs "postgresql://h:5/d") (rollbackQuery (cs "p"))) = true :=
  ⟨rfl, rfl, rfl, rfl⟩

/-- Counterexample to claim C5 as stated: with a probe that fails and a
terminal command that succeeds, the member is NOT retained — the pass still
issues the terminal command and splices the member out on its success. -/
theorem c5_counterexample : ¬ c5_claim_probe_fail_retained := fun h =>
  absurd
    (h c5_exec false (cs "p") { connstr := cs "postgresql://h:5/d" } [] (by decide))
    (by decide)

/-- Claim C5 as amended: one recovery pass keeps exactly the members whose
probe did not remove them and whose terminal command did not succeed
(`member_kept`), and produces per member the events of `bg_member_events`: a
probe whose result is an error leads to the terminal command being issued all
the same (member spliced out exactly on its success); a probe returning zero
rows closes the connection and splices the member without floating a terminal
command; a probe returning rows issues the terminal command and splices exactly
on success. -/
theorem c5_recovery_pass (exec : List Char → List Char → PGresStatus) (rollback : Bool)
    (pref : List Char) :
    ∀ ms : List rec_txn,
      (bg_pass exec rollback pref ms).1 = ms.filter (member_kept exec rollback pref)
      ∧ (bg_pass exec rollback pref ms).2 =
          ms.flatMap (bg_member_events exec rollback pref) := by
  intro ms
  induction ms with
  | nil => simp [bg_pass]
  | cons curr rest ih =>
    by_cases h1 : (check_txn exec pref curr).1
    · constructor
      · simp [bg_pass, h1, member_kept, ih.1]
      · simp [bg_pass, h1, bg_member_events, ih.2]
    · by_cases h2 : exec curr.connstr (termQuery rollback pref) == PGresStatus.cmdOK
      · constructor
        · simp [bg_pass, h1, h2, member_kept, ih.1]
        · simp [bg_pass, h1, h2, bg_member_events, ih.2]
      · constructor
        · simp [bg_pass, h1, h2, member_kept, ih.1]
        · simp [bg_pass, h1, h2, bg_member_events, ih.2]

/-- Helper: reading back a decimal digit character recovers the digit. -/
theorem digitChar_sub48 : ∀ d : Nat, d < 10 → (Nat.digitChar d).toNat - 48 = d := by
  decide

/-- Helper: folding `chStep` over the rendered digits of `t` starting from `a`
yields `a` shifted past those digits plus `t`. -/
theorem decCharsF_foldl : ∀ (fuel t : Nat), t ≤ fuel → ∀ a : Nat,
    List.foldl chStep a (decCharsF fuel t) = a * 10 ^ (decCharsF fuel t).length + t := by
  intro fuel
  induction fuel with
  | zero =>
    intro t ht a
    have h0 : t = 0 := Nat.le_zero.mp ht
    subst h0
    simp [decCharsF]
  | succ fuel ih =>
    intro t ht a
    by_cases h0 : t = 0
    · subst h0; simp [decCharsF]
    · have hdiv : t / 10 ≤ fuel := by
        have := Nat.div_lt_self (Nat.pos_of_ne_zero h0) (by norm_num : 1 < 10)
        omega
      have hd : (Nat.digitChar (t % 10)).toNat - 48 = t % 10 :=
        digitChar_sub48 _ (Nat.mod_lt t (by norm_num))
      simp only [decCharsF, if_neg h0, List.foldl_append, List.foldl_cons, List.foldl_nil,
        List.length_append, List.length_cons, List.length_nil]
      rw [ih (t / 10) hdiv a]
      show chStep _ _ = _
      rw [chStep, hd]
      have hmod : t / 10 * 10 + t % 10 = t := by omega
      calc (a * 10 ^ (decCharsF fuel (t / 10)).length + t / 10) * 10 + t % 10
          = a * (10 ^ (decCharsF fuel (t / 10)).length * 10) + (t / 10 * 10 + t % 10) := by
            ring
        _ = a * 10 ^ ((decCharsF fuel (t / 10)).length + 1) + t := by rw [hmod, pow_succ]

/-- Helper: `unrepr` is a retraction of `natChars`. -/
theorem unrepr_natChars (n : Nat) : unrepr (natChars n) = n := by
  by_cases h : n = 0
  · subst h; rfl
  · unfold unrepr natChars
    rw [if_neg h]
    simpa using decCharsF_foldl n n le_rfl 0

/-- Helper: decimal rendering is injective. -/
theorem natChars_injective {a b : Nat} (h : natChars a = natChars b) : a = b := by
  have ha := unrepr_natChars a
  rw [h, unrepr_natChars] at ha
  exact ha.symm

/-- Helper: member names built from the same prefix and different counter
values differ. -/
theorem mkName_inj (pref : List Char) {i j : Nat} (h : mkName pref i = mkName pref j) :
    i = j := by
  unfold mkName at h
  have h2 := List.append_cancel_left h
  simp only [List.cons.injEq, true_and] at h2
  exact natChars_injective h2

/-- Helper: behaviour of `tpc_prepare` on a registration that passes the
transition check (which only a BEGIN-phase set does; see the claim-C4 theorem
for the rejection of later registrations): the member name is
`<prefix>_<c+1>` (differing from every existing member's `<prefix>_<k>`,
k ≤ c), the PREPARE phase line and the `todo` action line are written BEFORE
the remote `PREPARE TRANSACTION '<name>'` (trace positions 0-2 precede
position 3), and the member is appended exactly when the remote accepts; on
rejection the call fails with InvalidTransactionState and the member list is
unchanged. -/
theorem tpc_prepare_accepted_spec (exec : List Char → List Char → Bool)
    (ts : tpc_txnset) (cnx : PGconn)
    (hlen : ts.txn_pref.length + 2 + cdigits ts.counter ≤ NAMEDATALEN)
    (hc : ts.counter + 1 < 4294967296)
    (hname : (mkName ts.txn_pref (ts.counter + 1)).length ≤ 63)
    (htrans : tpc_phase_is_valid_transition ts.tpc_phase TpcPhase.PREPARE = true)
    (hold : ∀ t ∈ ts.txns, ∃ k, 1 ≤ k ∧ k ≤ ts.counter ∧
      t.txn_name = mkName ts.txn_pref k) :
    (tpc_prepare exec ts cnx).2.1.counter = ts.counter + 1
    ∧ (tpc_prepare exec ts cnx).2.2 =
        [TpcEvent.fileWrite (phaseLineL (cs "prepare")),
         TpcEvent.fileWrite (actionLineL (cs "prepare") (connUrl cnx)
           (mkName ts.txn_pref (ts.counter + 1)) (cs "todo")),
         TpcEvent.fileFlush,
         TpcEvent.sqlExec (connUrl cnx) (prepareQuery (mkName ts.txn_pref (ts.counter + 1)))]
    ∧ (∀ t ∈ ts.txns, t.txn_name ≠ mkName ts.txn_pref (ts.counter + 1))
    ∧ (if exec (connUrl cnx) (prepareQuery (mkName ts.txn_pref (ts.counter + 1))) then
         (tpc_prepare exec ts cnx).1 = Except.ok (mkName ts.txn_pref (ts.counter + 1))
         ∧ (tpc_prepare exec ts cnx).2.1.txns =
             ts.txns ++ [{ cnx := cnx, txn_name := mkName ts.txn_pref (ts.counter + 1) }]
       else
         (tpc_prepare exec ts cnx).1 = Except.error TpcError.invalidTransactionState
         ∧ (tpc_prepare exec ts cnx).2.1.txns = ts.txns) := by
  have hmod : (ts.counter + 1) % 4294967296 = ts.counter + 1 := Nat.mod_eq_of_lt hc
  have htake : (mkName ts.txn_pref (ts.counter + 1)).take 63
      = mkName ts.txn_pref (ts.counter + 1) := List.take_of_length_le hname
  have hnotgt : ¬ (ts.txn_pref.length + 2 + cdigits ts.counter > NAMEDATALEN) := by omega
  have huniq : ∀ t ∈ ts.txns, t.txn_name ≠ mkName ts.txn_pref (ts.counter + 1) := by
    intro t ht heq
    obtain ⟨k, hk1, hk2, hkeq⟩ := hold t ht
    rw [hkeq] at heq
    have := mkName_inj ts.txn_pref heq
    omega
  refine ⟨?_, ?_, huniq, ?_⟩ <;>
    by_cases hx : exec (connUrl cnx) (prepareQuery (mkName ts.txn_pref (ts.counter + 1))) <;>
      simp [tpc_prepare, hnotgt, hmod, htake, htrans, hx,
        tpc_txnsetfile_write_phase, tpc_txnsetfile_write_action_v0,
        tpc_phase_get_label]

/-- Helper: instantiation of the accepted-registration behaviour at a concrete
one-member set with counter 1. -/
theorem tpc_prepare_accepted_inst :
    tpc_phase_is_valid_transition c4_example_set.tpc_phase TpcPhase.PREPARE = true
    ∧ (tpc_prepare (fun _ _ => true) c4_example_set
        { host := cs "remote-b", port := cs "5432", db := cs "db2" }).2.1.counter
        = c4_example_set.counter + 1
    ∧ (∀ t ∈ c4_example_set.txns,
        t.txn_name ≠ mkName c4_example_set.txn_pref (c4_example_set.counter + 1)) := by
  have hold : ∀ t ∈ c4_example_set.txns, ∃ k, 1 ≤ k ∧ k ≤ c4_example_set.counter ∧
      t.txn_name = mkName c4_example_set.txn_pref k := by
    intro t ht
    simp only [c4_example_set, List.mem_singleton] at ht
    exact ⟨1, le_rfl, le_rfl, by subst ht; rfl⟩
  have h := tpc_prepare_accepted_spec (fun _ _ => true) c4_example_set
    { host := cs "remote-b", port := cs "5432", db := cs "db2" }
    (by decide) (by decide) (by decide) (by decide) hold
  exact ⟨by decide, h.1, h.2.2.1⟩

/-- Claim C4 (code side): the registration path rejects every registration
after the first.  After one successful registration the set is in phase
PREPARE, and `tpc_phase_is_valid_transition PREPARE PREPARE` is false, so
`tpc_prepare` for the next connection fails with InvalidTransactionState
having written no `todo` action line, executed no remote command, and appended
no member (only the counter increment has happened at the point of the
`ereport`) — although the claim, the spec's state machine
`PREPARE --register(next)--> PREPARE` and its two-member scenario 1 require
the `todo` line, the remote PREPARE and the conditional append for every
registration. -/
theorem c4_second_registration_rejected :
    tpc_phase_is_valid_transition TpcPhase.PREPARE TpcPhase.PREPARE = false
    ∧ tpc_prepare (fun _ _ => true) c4_second_set
        { host := cs "remote-b", port := cs "5432", db := cs "db2" } =
      (Except.error TpcError.invalidTransactionState,
       { c4_second_set with counter := 2 }, [])
    ∧ (tpc_prepare (fun _ _ => true) c4_second_set
        { host := cs "remote-b", port := cs "5432", db := cs "db2" }).2.1.txns
      = c4_second_set.txns :=
  ⟨rfl, rfl, rfl⟩

/-- Helper: `dropWhile` never lengthens a list. -/
theorem dropWhile_length_le (p : Char → Bool) :
    ∀ l : List Char, (l.dropWhile p).length ≤ l.length := by
  intro l
  induction l with
  | nil => simp
  | cons a l ih =>
    by_cases h : p a
    · simp only [List.dropWhile_cons, h, if_true, List.length_cons]
      omega
    · simp [List.dropWhile_cons, h]

/-- Helper: splitting a word followed by a whitespace boundary. -/
theorem takeWhile_append_word : ∀ (w r : List Char), (∀ c ∈ w, notWs c = true) →
    (r = [] ∨ ∃ c rest, r = c :: rest ∧ notWs c = false) →
    (w ++ r).takeWhile notWs = w ∧ (w ++ r).dropWhile notWs = r := by
  intro w
  induction w with
  | nil =>
    intro r hall hr
    rcases hr with rfl | ⟨c, rest, rfl, hc⟩
    · simp
    · simp [List.takeWhile_cons, List.dropWhile_cons, hc]
  | cons a w ih =>
    intro r hall hr
    have ha : notWs a = true := hall a (List.mem_cons_self _ _)
    have ih2 := ih r (fun c hc => hall c (List.mem_cons_of_mem _ hc)) hr
    simp [List.takeWhile_cons, List.dropWhile_cons, ha, ih2.1, ih2.2]

/-- Helper: `wordsF` does not depend on the fuel once it covers the input
length. -/
theorem wordsF_fuel_irrel : ∀ (f1 : Nat) (s : List Char) (f2 : Nat),
    s.length ≤ f1 → s.length ≤ f2 → wordsF f1 s = wordsF f2 s := by
  intro f1
  induction f1 with
  | zero =>
    intro s f2 h1 h2
    have hs : s = [] := List.eq_nil_of_length_eq_zero (Nat.le_zero.mp h1)
    subst hs
    cases f2 <;> simp [wordsF]
  | succ f1 ih =>
    intro s f2 h1 h2
    cases s with
    | nil => cases f2 <;> simp [wordsF]
    | cons c rest =>
      cases f2 with
      | zero =>
        simp only [List.length_cons] at h2
        omega
      | succ f2 =>
        simp only [List.length_cons] at h1 h2
        simp only [wordsF]
        by_cases hc : notWs c
        · simp only [hc, if_true]
          have hdrop : ((c :: rest).dropWhile notWs).length ≤ rest.length := by
            simp only [List.dropWhile_cons, hc, if_true]
            exact dropWhile_length_le notWs rest
          rw [ih ((c :: rest).dropWhile notWs) f2 (by omega) (by omega)]
        · simp only [hc, Bool.false_eq_true, if_false]
          exact ih rest f2 (by omega) (by omega)

/-- Helper: tokenising past a leading whitespace character. -/
theorem words_cons_ws (c : Char) (r : List Char) (h : notWs c = false) :
    words (c :: r) = words r := by
  unfold words
  simp [List.length_cons, wordsF, h]

/-- Helper: tokenising a whitespace-free word followed by a boundary. -/
theorem words_word_append : ∀ (w r : List Char), w ≠ [] → (∀ c ∈ w, notWs c = true) →
    (r = [] ∨ ∃ c rest, r = c :: rest ∧ notWs c = false) →
    words (w ++ r) = w :: words r := by
  intro w r hw hall hr
  obtain ⟨htake, hdrop⟩ := takeWhile_append_word w r hall hr
  cases w with
  | nil => exact absurd rfl hw
  | cons a wt =>
    have ha : notWs a = true := hall a (List.mem_cons_self _ _)
    unfold words
    have hshape : (a :: wt) ++ r = a :: (wt ++ r) := rfl
    rw [hshape]
    simp only [List.length_cons, wordsF, ha, if_true]
    rw [← hshape, htake, hdrop]
    congr 1
    exact wordsF_fuel_irrel _ r _ (by simp [List.length_append]) le_rfl

/-- Helper: tokenising a rendered action line recovers its four fields. -/
theorem words_actionLine : ∀ (label url name status : List Char),
    label ≠ [] → (∀ c ∈ label, notWs c = true) →
    url ≠ [] → (∀ c ∈ url, notWs c = true) →
    name ≠ [] → (∀ c ∈ name, notWs c = true) →
    status ≠ [] → (∀ c ∈ status, notWs c = true) →
    words (actionLineL label url name status) = [label, url, name, status] := by
  intro label url name status hl hlw hu huw hn hnw hs hsw
  unfold actionLineL
  rw [words_word_append label _ hl hlw (Or.inr ⟨' ', _, rfl, by decide⟩)]
  rw [words_cons_ws ' ' _ (by decide)]
  rw [words_word_append url _ hu huw (Or.inr ⟨' ', _, rfl, by decide⟩)]
  rw [words_cons_ws ' ' _ (by decide)]
  rw [words_word_append name _ hn hnw (Or.inr ⟨' ', _, rfl, by decide⟩)]
  rw [words_cons_ws ' ' _ (by decide)]
  rw [words_word_append status _ hs hsw (Or.inr ⟨Char.ofNat 10, _, rfl, by decide⟩)]
  rw [words_cons_ws (Char.ofNat 10) _ (by decide)]
  rfl

/-- Helper: a pattern is a prefix of itself followed by anything. -/
theorem startsWithL_self_append : ∀ (pat rest : List Char),
    startsWithL pat (pat ++ rest) = true := by
  intro pat
  induction pat with
  | nil => intro rest; rfl
  | cons p ps ih => intro rest; simp [startsWithL, ih]

/-- Helper: a prefix occurrence is a substring occurrence. -/
theorem containsSub_of_startsWith : ∀ (pat s : List Char), startsWithL pat s = true →
    containsSub pat s = true := by
  intro pat s h
  cases s with
  | nil => simpa [containsSub] using h
  | cons c rest => simp [containsSub, h]

/-- Helper: the rendered URL is nonempty (it starts with the scheme). -/
theorem connUrl_ne_nil (p : PGconn) : connUrl p ≠ [] := by
  have h : connUrl p = 'p' :: (cs "ostgresql://" ++ p.host ++
      (':' :: (p.port ++ ('/' :: p.db)))) := rfl
  rw [h]
  simp

/-- Helper: the rendered URL is whitespace-free when its parts are. -/
theorem connUrl_notWs (p : PGconn) (hh : ∀ c ∈ p.host, notWs c = true)
    (hp : ∀ c ∈ p.port, notWs c = true) (hd : ∀ c ∈ p.db, notWs c = true) :
    ∀ c ∈ connUrl p, notWs c = true := by
  intro c hc
  have hlit : ∀ c ∈ cs "postgresql://", notWs c = true := by decide
  simp only [connUrl, List.mem_append, List.mem_cons] at hc
  rcases hc with (hc | hc) | rfl | hc | rfl | hc
  · exact hlit c hc
  · exact hh c hc
  · decide
  · exact hp c hc
  · decide
  · exact hd c hc

/-- Helper: one `fgets` read of a newline-terminated line shorter than the
buffer returns exactly that line. -/
theorem fgetsChunk_line : ∀ (w : List Char) (n : Nat) (rest : List Char),
    Char.ofNat 10 ∉ w → w.length < n →
    fgetsChunk n (w ++ (Char.ofNat 10 :: rest)) = w ++ [Char.ofNat 10] := by
  intro w
  induction w with
  | nil =>
    intro n rest h hn
    cases n with
    | zero => omega
    | succ n => simp [fgetsChunk]
  | cons a w ih =>
    intro n rest h hn
    cases n with
    | zero => simp only [List.length_cons] at hn; omega
    | succ n =>
      have hane : a ≠ Char.ofNat 10 := fun he => h (by simp [he])
      have ha : (a == Char.ofNat 10) = false := by
        simpa [beq_eq_false_iff_ne] using hane
      have hw : Char.ofNat 10 ∉ w := fun hin => h (List.mem_cons_of_mem _ hin)
      have hshape : (a :: w) ++ (Char.ofNat 10 :: rest) = a :: (w ++ (Char.ofNat 10 :: rest)) := rfl
      rw [hshape]
      simp only [fgetsChunk, ha, Bool.false_eq_true, if_false]
      rw [ih n rest hw (by simp only [List.length_cons] at hn; omega)]
      rfl

/-- Helper: unfolding of the `fgets` loop on a nonempty stream. -/
theorem fgetsAllF_cons_eq : ∀ (fuel : Nat) (s : List Char), s ≠ [] →
    fgetsAllF (fuel + 1) s =
      fgetsChunk 511 s :: fgetsAllF fuel (List.drop (fgetsChunk 511 s).length s) := by
  intro fuel s hs
  cases s with
  | nil => exact absurd rfl hs
  | cons c rest => rfl

/-- Helper: reading back a file made of newline-terminated lines shorter than
the buffer returns exactly those lines. -/
theorem fgetsAllF_join : ∀ (lines : List (List Char)) (fuel : Nat),
    (∀ l ∈ lines, ∃ w, l = w ++ [Char.ofNat 10] ∧ Char.ofNat 10 ∉ w ∧ w.length < 511) →
    (joinL lines).length ≤ fuel →
    fgetsAllF fuel (joinL lines) = lines := by
  intro lines
  induction lines with
  | nil =>
    intro fuel h hf
    cases fuel <;> simp [joinL, fgetsAllF]
  | cons l rest ih =>
    intro fuel h hf
    obtain ⟨w, hl, hnw, hwlen⟩ := h l (List.mem_cons_self _ _)
    subst hl
    have hjoin : joinL ((w ++ [Char.ofNat 10]) :: rest)
        = w ++ (Char.ofNat 10 :: joinL rest) := by simp [joinL]
    rw [hjoin] at hf ⊢
    cases fuel with
    | zero =>
      exfalso
      simp only [List.length_append, List.length_cons] at hf
      omega
    | succ fuel =>
      rw [fgetsAllF_cons_eq fuel _ (by cases w <;> simp)]
      rw [fgetsChunk_line w 511 (joinL rest) hnw hwlen]
      have hsplit : w ++ (Char.ofNat 10 :: joinL rest)
          = (w ++ [Char.ofNat 10]) ++ joinL rest := by simp
      have hdrop : List.drop (w ++ [Char.ofNat 10]).length
          (w ++ (Char.ofNat 10 :: joinL rest)) = joinL rest := by
        rw [hsplit]
        exact List.drop_left _ _
      rw [hdrop]
      congr 1
      apply ih fuel (fun l hl => h l (List.mem_cons_of_mem _ hl))
      simp only [List.length_append, List.length_cons] at hf
      omega

/-- Helper: a rendered action line is a newline-terminated line without
interior newlines, shorter than the read buffer when within the length bound. -/
theorem actionLine_goodline (u n : List Char) (hu : ∀ c ∈ u, notWs c = true)
    (hn : ∀ c ∈ n, notWs c = true)
    (hlen : (actionLineL (cs "prepare") u n (cs "todo")).length ≤ 511) :
    ∃ w, actionLineL (cs "prepare") u n (cs "todo") = w ++ [Char.ofNat 10]
      ∧ Char.ofNat 10 ∉ w ∧ w.length < 511 := by
  refine ⟨cs "prepare" ++ (' ' :: (u ++ (' ' :: (n ++ (' ' :: cs "todo"))))), ?_, ?_, ?_⟩
  · simp [actionLineL]
  · intro hmem
    simp only [List.mem_append, List.mem_cons] at hmem
    rcases hmem with hc | hc | hc | hc | hc | hc | hc
    · exact absurd hc (by decide)
    · exact absurd hc (by decide)
    · exact absurd (hu _ hc) (by decide)
    · exact absurd hc (by decide)
    · exact absurd (hn _ hc) (by decide)
    · exact absurd hc (by decide)
    · exact absurd hc (by decide)
  · have hlen2 : (actionLineL (cs "prepare") u n (cs "todo")).length
        = (cs "prepare" ++ (' ' :: (u ++ (' ' :: (n ++ (' ' :: cs "todo")))))).length + 1 := by
      simp only [actionLineL, List.length_append, List.length_cons, List.length_nil]
      omega
    rw [hlen2] at hlen
    omega

/-- Helper: the registration fold appends one PREPARE phase line and one
`todo` action line per connection, in order, and preserves the prefix. -/
theorem foldl_regWriteOne (pref : List Char) : ∀ (conns : List PGconn) (ts : tpc_txnset),
    ts.txn_pref = pref →
    (conns.foldl regWriteOne ts).log = ts.log ++ conns.flatMap (fun c =>
      [phaseLineL (cs "prepare"),
       actionLineL (cs "prepare") (connUrl c) pref (cs "todo")]) := by
  intro conns
  induction conns with
  | nil => intro ts h; simp
  | cons c rest ih =>
    intro ts h
    have hpref : (regWriteOne ts c).txn_pref = pref := by
      simp [regWriteOne, tpc_txnsetfile_write_phase, tpc_txnsetfile_write_action, h]
    have hlog : (regWriteOne ts c).log = ts.log ++
        [phaseLineL (cs "prepare"),
         actionLineL (cs "prepare") (connUrl c) pref (cs "todo")] := by
      simp [regWriteOne, tpc_txnsetfile_write_phase, tpc_txnsetfile_write_action,
        tpc_phase_get_label, h]
    simp only [List.foldl_cons, List.flatMap_cons]
    rw [ih (regWriteOne ts c) hpref, hlog]
    simp

/-- Helper: the written log is the BEGIN phase line followed by the per-member
pairs. -/
theorem writeSetLog_eq (pref : List Char) (conns : List PGconn) :
    writeSetLog pref conns = phaseLineL (cs "begin") :: conns.flatMap (fun c =>
      [phaseLineL (cs "prepare"),
       actionLineL (cs "prepare") (connUrl c) pref (cs "todo")]) := by
  unfold writeSetLog writeSetLogSet
  rw [foldl_regWriteOne pref conns _ (by simp [tpc_txnsetfile_write_phase])]
  simp [tpc_txnsetfile_write_phase, tpc_phase_get_label]

/-- Helper: parsing the per-member line pairs populates the set. -/
theorem from_lines_pairs (pref : List Char) (hp1 : pref ≠ [])
    (hp2 : ∀ c ∈ pref, notWs c = true) :
    ∀ (conns : List PGconn) (ts : rec_txnset),
      (∀ p ∈ conns, (∀ c ∈ p.host, notWs c = true) ∧ (∀ c ∈ p.port, notWs c = true) ∧
        (∀ c ∈ p.db, notWs c = true) ∧
        (actionLineL (cs "prepare") (connUrl p) pref (cs "todo")).length ≤ 511) →
      tpc_txnset_from_lines
        (conns.flatMap (fun c => [phaseLineL (cs "prepare"),
          actionLineL (cs "prepare") (connUrl c) pref (cs "todo")])) ts
      = Except.ok { logpath := ts.logpath,
                    tpc_phase := (if conns = [] then ts.tpc_phase else TpcPhase.PREPARE),
                    txn_pref := (if conns = [] then ts.txn_pref else pref),
                    txns := ts.txns ++ conns.map (fun c => { connstr := connUrl c }) } := by
  intro conns
  induction conns with
  | nil =>
    intro ts h
    simp [tpc_txnset_from_lines]
  | cons p rest ih =>
    intro ts h
    obtain ⟨hh, hpp, hd, hlen⟩ := h p (List.mem_cons_self _ _)
    have hg1 : tooLongGuard (phaseLineL (cs "prepare")) = false := by decide
    have hs1 : startsWithL (cs "phase") (phaseLineL (cs "prepare")) = true := by decide
    have hw1 : (words (phaseLineL (cs "prepare"))).getD 1 [] = cs "prepare" := by decide
    have hg2 : tooLongGuard (actionLineL (cs "prepare") (connUrl p) pref (cs "todo"))
        = false := by
      apply tooLongGuard_of_le
      exact hlen
    have hs2 : startsWithL (cs "phase")
        (actionLineL (cs "prepare") (connUrl p) pref (cs "todo")) = false := rfl
    have hwords2 : words (actionLineL (cs "prepare") (connUrl p) pref (cs "todo"))
        = [cs "prepare", connUrl p, pref, cs "todo"] :=
      words_actionLine (cs "prepare") (connUrl p) pref (cs "todo")
        (by decide) (by decide) (connUrl_ne_nil p) (connUrl_notWs p hh hpp hd)
        hp1 hp2 (by decide) (by decide)
    have hcont : containsSub (cs "postgresql://") (connUrl p) = true := by
      apply containsSub_of_startsWith
      exact startsWithL_self_append (cs "postgresql://") _
    simp only [List.flatMap_cons, List.cons_append, List.nil_append]
    rw [tpc_txnset_from_lines, if_neg (by simp [hg1]), if_pos hs1, hw1]
    show tpc_txnset_from_lines _ { ts with tpc_phase := TpcPhase.PREPARE } = _
    rw [tpc_txnset_from_lines, if_neg (by simp [hg2]), if_neg (by simp [hs2])]
    rw [hwords2]
    simp only [List.getD_cons_succ, List.getD_cons_zero]
    rw [if_pos hcont]
    rw [ih _ (fun q hq => h q (List.mem_cons_of_mem _ hq))]
    by_cases hrest : rest = []
    · subst hrest; simp
    · simp [hrest]

/-- Counterexample to claim C8 as stated: for the two-member set with prefix
`p` and member names `p_1`, `p_2`, every action line the `src/src` writer
produces carries the SET prefix `p` as its name field, so re-parsing cannot
recover the per-member transaction names (and the parser stores the field into
the set's `txn_prefix`, its member struct having no name at all). -/
theorem c8_counterexample : ¬ c8_claim := fun h =>
  absurd (h c1_example_set) (by decide)

/-- Claim C8 as amended: a written log (BEGIN phase line, then per registered
connection a PREPARE phase line and a `todo` action line) re-parsed through
`tpc_txnset_from_file` yields an equivalent set up to what the representation
stores: the same phase (PREPARE), members in the same order carrying the same
connection URLs, and the set prefix recovered from the action lines' name
field; per-member names are not recoverable because the writer records the set
prefix in every action line. -/
theorem c8_roundtrip (pref : List Char) (conns : List PGconn)
    (hp1 : pref ≠ []) (hp2 : ∀ c ∈ pref, notWs c = true) (hne : conns ≠ [])
    (hconn : ∀ p ∈ conns, (∀ c ∈ p.host, notWs c = true) ∧
      (∀ c ∈ p.port, notWs c = true) ∧ (∀ c ∈ p.db, notWs c = true) ∧
      (actionLineL (cs "prepare") (connUrl p) pref (cs "todo")).length ≤ 511) :
    tpc_txnset_from_file pref (joinL (writeSetLog pref conns)) =
      Except.ok { logpath := pref.take 255, tpc_phase := TpcPhase.PREPARE,
                  txn_pref := pref,
                  txns := conns.map (fun c => { connstr := connUrl c }) } := by
  rw [writeSetLog_eq]
  unfold tpc_txnset_from_file fgetsAll
  have hgood : ∀ l ∈ (phaseLineL (cs "begin") :: conns.flatMap (fun c =>
      [phaseLineL (cs "prepare"),
       actionLineL (cs "prepare") (connUrl c) pref (cs "todo")])),
      ∃ w, l = w ++ [Char.ofNat 10] ∧ Char.ofNat 10 ∉ w ∧ w.length < 511 := by
    intro l hl
    rcases List.mem_cons.mp hl with rfl | hl
    · exact ⟨cs "phase begin", rfl, by decide, by decide⟩
    · rcases List.mem_flatMap.mp hl with ⟨p, hp, hlp⟩
      obtain ⟨hh, hpo, hdb, hlen⟩ := hconn p hp
      rcases List.mem_cons.mp hlp with rfl | hlp
      · exact ⟨cs "phase prepare", rfl, by decide, by decide⟩
      · rcases List.mem_cons.mp hlp with rfl | hlp
        · exact actionLine_goodline (connUrl p) pref (connUrl_notWs p hh hpo hdb) hp2 hlen
        · simp at hlp
  rw [fgetsAllF_join _ _ hgood le_rfl]
  have hg0 : tooLongGuard (phaseLineL (cs "begin")) = false := by decide
  have hs0 : startsWithL (cs "phase") (phaseLineL (cs "begin")) = true := by decide
  have hw0 : (words (phaseLineL (cs "begin"))).getD 1 [] = cs "begin" := by decide
  rw [tpc_txnset_from_lines, if_neg (by simp [hg0]), if_pos hs0, hw0]
  show tpc_txnset_from_lines _
      { logpath := pref.take 255, tpc_phase := TpcPhase.BEGIN,
        txn_pref := [], txns := [] } = _
  rw [from_lines_pairs pref hp1 hp2 conns _ hconn]
  simp [hne]

/-- Witness for the amended round trip at the concrete prefix `p` and two
concrete remote connections. -/
theorem c8_roundtrip_witness :
    ((cs "p" : List Char) ≠ [] ∧ c8_example_conns ≠ []) ∧
    tpc_txnset_from_file (cs "p") (joinL (writeSetLog (cs "p") c8_example_conns)) =
      Except.ok { logpath := (cs "p").take 255, tpc_phase := TpcPhase.PREPARE,
                  txn_pref := cs "p",
                  txns := c8_example_conns.map (fun c => { connstr := connUrl c }) } :=
  ⟨⟨by decide, by decide⟩,
   c8_roundtrip (cs "p") c8_example_conns (by decide) (by decide) (by decide) (by decide)⟩
